import Mathlib

/-!
Verification of the open-cowork session runner core against its
natural-language specification.  The definitions below are shallow
embeddings of the Rust sources under `src-tauri/src`: pure functions are
translated directly, stateful code is modelled by explicit state passing,
and I/O boundaries (HTTP, processes, the file system) are abstracted as
oracle parameters supplied to the embedded functions.
-/

set_option maxHeartbeats 1000000

namespace OpenCowork

/-- Dynamic JSON values (`serde_json::Value`). Numbers are modelled as
integers; no claim depends on float payloads. -/
inductive Json where
  | null
  | bool (b : Bool)
  | num (n : Int)
  | str (s : String)
  | arr (elems : List Json)
  | obj (fields : List (String × Json))

namespace Json

/-- `Value::get(key)` on an object: first field with the given key. -/
def get : Json → String → Option Json
  | .obj fields, key => lookupField fields key
  | _, _ => none
where lookupField : List (String × Json) → String → Option Json
  | [], _ => none
  | (k, v) :: rest, key => if k = key then some v else lookupField rest key

/-- `Value::as_str`. -/
def asStr : Json → Option String
  | .str s => some s
  | _ => none

/-- `Value::as_array`. -/
def asArr : Json → Option (List Json)
  | .arr xs => some xs
  | _ => none

/-- `Value::as_u64` (we only need the Nat view used for indices). -/
def asNat : Json → Option Nat
  | .num n => if n ≥ 0 then some n.toNat else none
  | _ => none

end Json

/-! ## config.rs -/

/-- Unicode `White_Space` (Rust `char::is_whitespace`). -/
def isWsChar (c : Char) : Bool :=
  (0x9 ≤ c.toNat && c.toNat ≤ 0xD) || c.toNat = 0x20 || c.toNat = 0x85 ||
  c.toNat = 0xA0 || c.toNat = 0x1680 ||
  (0x2000 ≤ c.toNat && c.toNat ≤ 0x200A) || c.toNat = 0x2028 ||
  c.toNat = 0x2029 || c.toNat = 0x202F || c.toNat = 0x205F || c.toNat = 0x3000

/-- Rust `str::trim` on a character list. -/
def rustTrim (s : List Char) : List Char :=
  ((s.dropWhile isWsChar).reverse.dropWhile isWsChar).reverse

/-- `str::trim().is_empty()` — blank means whitespace-only. -/
def isBlank (s : List Char) : Bool := s.all isWsChar

def isAsciiDigit (c : Char) : Bool := '0' ≤ c && c ≤ '9'

def digitsToNat (ds : List Char) : Nat :=
  ds.foldl (fun acc c => acc * 10 + (c.toNat - '0'.toNat)) 0

/-- Rust `str::parse::<usize>`: optional leading `+`, then one or more
ASCII digits, failing on overflow past `usize::MAX` (64-bit). -/
def rustParseUsize (s : List Char) : Option Nat :=
  let digits := match s with
    | '+' :: rest => rest
    | other => other
  if digits ≠ [] ∧ digits.all isAsciiDigit then
    let n := digitsToNat digits
    if n < 2 ^ 64 then some n else none
  else none

/-- `config::parse_max_tool_iterations`. -/
def parse_max_tool_iterations (value : Option (List Char)) : Nat :=
  (value.bind fun raw =>
    let trimmed := rustTrim raw
    if trimmed.isEmpty then none
    else rustParseUsize trimmed).getD 0

/-- `config::should_stop_tool_loop`. -/
def should_stop_tool_loop (iterations maxIterations : Nat) : Bool :=
  maxIterations > 0 && iterations ≥ maxIterations

/-! ## SSE frame decoding (`drain_sse_events`) -/

/-- Index of the first occurrence of the `"\n\n"` separator
(`str::find("\n\n")`). -/
def findSep : List Char → Option Nat
  | [] => none
  | [_] => none
  | a :: b :: rest =>
    if a = '\n' ∧ b = '\n' then some 0
    else (findSep (b :: rest)).map (· + 1)

/-- One pass of the `drain_sse_events` loop, with fuel for termination;
`drain_sse_events` supplies fuel equal to the buffer length, which always
suffices because every iteration consumes at least two characters. -/
def drainGo : Nat → List Char → List (List Char) × List Char
  | 0, buf => ([], buf)
  | fuel + 1, buf =>
    match findSep buf with
    | none => ([], buf)
    | some pos =>
      let event := buf.take pos
      let rest := buf.drop (pos + 2)
      let (events, remaining) := drainGo fuel rest
      (if isBlank event then events else event :: events, remaining)

/-- `drain_sse_events`: repeatedly split off the prefix before the first
blank-line separator, discarding whitespace-only events; returns the
yielded events and the retained partial buffer. -/
def drain_sse_events (buffer : List Char) : List (List Char) × List Char :=
  drainGo buffer.length buffer

/-! ## JSON serialization (`serde_json` compact form, `Value::to_string`) -/

def hexDigit (n : Nat) : Char :=
  if n < 10 then Char.ofNat ('0'.toNat + n) else Char.ofNat ('a'.toNat + (n - 10))

def hex4 (n : Nat) : String :=
  String.mk [hexDigit (n / 4096 % 16), hexDigit (n / 256 % 16),
             hexDigit (n / 16 % 16), hexDigit (n % 16)]

def escapeChar (c : Char) : String :=
  if c = '"' then "\\\""
  else if c = '\\' then "\\\\"
  else if c = '\n' then "\\n"
  else if c = '\r' then "\\r"
  else if c = '\t' then "\\t"
  else if c.toNat < 0x20 then "\\u" ++ hex4 c.toNat
  else String.singleton c

def escapeString (s : String) : String :=
  String.join (s.toList.map escapeChar)

mutual
/-- Compact JSON serialization (`Value::to_string`). -/
def Json.render : Json → String
  | .null => "null"
  | .bool true => "true"
  | .bool false => "false"
  | .num n => toString n
  | .str s => "\"" ++ escapeString s ++ "\""
  | .arr xs => "[" ++ Json.renderElems xs ++ "]"
  | .obj fs => "\x7b" ++ Json.renderFields fs ++ "\x7d"

def Json.renderElems : List Json → String
  | [] => ""
  | [x] => x.render
  | x :: y :: rest => x.render ++ "," ++ Json.renderElems (y :: rest)

def Json.renderFields : List (String × Json) → String
  | [] => ""
  | [(k, v)] => "\"" ++ escapeString k ++ "\":" ++ v.render
  | (k, v) :: f :: rest =>
    "\"" ++ escapeString k ++ "\":" ++ v.render ++ "," ++ Json.renderFields (f :: rest)
end

/-- `stringify_value`: a JSON string passes through unchanged, everything
else is serialized compactly. -/
def stringify_value : Json → String
  | .str text => text
  | v => v.render

/-! ## fs_tools.rs -/

/-- `str::contains`, on character lists (`containsSub pat s` ⇔ Rust
`s.contains(pat)`). -/
def containsSub (pat : List Char) : List Char → Bool
  | [] => pat.isPrefixOf []
  | c :: rest => pat.isPrefixOf (c :: rest) || containsSub pat rest

/-- `str::replacen(pat, rep, 1)`: replace the leftmost occurrence only. -/
def replaceFirst (pat rep : List Char) : List Char → List Char
  | [] => if pat.isPrefixOf ([] : List Char) then rep else []
  | c :: rest =>
    if pat.isPrefixOf (c :: rest) then rep ++ (c :: rest).drop pat.length
    else c :: replaceFirst pat rep rest

/-- `fs_tools::edit_file`, with the file's on-disk content threaded
explicitly: the first component is the command outcome, the second the
content on disk after the call (unchanged on the error path, since the
source returns before `fs::write`). -/
def edit_file (content old_string new_string : List Char) :
    Except String Unit × List Char :=
  if ¬ containsSub old_string content then
    (.error "Old string not found in file.", content)
  else
    (.ok (), replaceFirst old_string new_string content)

/-! ## command_tools.rs -/

structure ToolExecutionResult where
  content : String
  is_error : Bool
deriving DecidableEq

/-- Output of a finished child process; `exitCode = 0` is
`ExitStatus::success`. -/
structure ProcOutput where
  stdout : String
  stderr : String
  exitCode : Int

/-- The program, arguments and working directory handed to
`std::process::Command`. -/
structure ProcInvocation where
  program : String
  args : List String
  cwd : Option String

/-- `command_tools::format_output`: streams that are whitespace-only after
`trim()` count as empty. -/
def format_output (stdout stderr : String) : String :=
  match isBlank stdout.toList, isBlank stderr.toList with
  | true, true => ""
  | false, true => stdout
  | true, false => stderr
  | false, false => stdout ++ "\n" ++ stderr

/-- `command_tools::run_command`; `spawn` abstracts the operating system's
process execution. -/
def run_command (spawn : ProcInvocation → Except String ProcOutput)
    (command : String) (cwd : Option String) : Except String ToolExecutionResult :=
  match spawn ⟨"sh", ["-lc", command], cwd⟩ with
  | .error e => .error ("Command failed: " ++ e)
  | .ok output =>
    .ok ⟨format_output output.stdout output.stderr, output.exitCode != 0⟩

/-! ## web_tools.rs -/

/-- `web_tools::fetch_url`, after the HTTP response arrived: format the
output from the displayed status and the body bytes (modelled as a
character list, one entry per byte). -/
def fetch_url_output (statusStr : String) (body : List Char) : List Char :=
  let trimmed :=
    if body.length > 8000 then
      body.take 8000 ++
        ("...\n[truncated " ++ toString (body.length - 8000) ++ " bytes]").toList
    else body
  ("Status: " ++ statusStr ++ "\n\n").toList ++ trimmed

/-! ## state.rs — pending permission registry -/

/-- The pending-permission map: `tool_use_id` ↦ one-shot sender (senders
are opaque tokens). -/
abbrev PendingPermissions := List (String × Nat)

def containsKey (pending : PendingPermissions) (id : String) : Bool :=
  pending.any (fun entry => entry.1 = id)

/-- `SessionState::register_permission`. -/
def register_permission (pending : PendingPermissions) (tool_use_id : String)
    (sender : Nat) : Except String PendingPermissions :=
  if containsKey pending tool_use_id then
    .error "permission request already pending"
  else
    .ok ((tool_use_id, sender) :: pending)

/-- `HashMap::remove`: take out the entry with the given key, if any. -/
def removeKey : PendingPermissions → String → PendingPermissions × Option Nat
  | [], _ => ([], none)
  | (k, s) :: rest, id =>
    if k = id then (rest, some s)
    else ((k, s) :: (removeKey rest id).1, (removeKey rest id).2)

/-- `SessionState::resolve_permission`: returns whether an entry was
found, the map afterwards, and the (at most one) send performed. -/
def resolve_permission (pending : PendingPermissions) (tool_use_id : String)
    (result : Json) : Bool × PendingPermissions × Option (Nat × Json) :=
  match removeKey pending tool_use_id with
  | (rest, some sender) => (true, rest, some (sender, result))
  | (_, none) => (false, pending, none)

/-- An operation against the pending-permission registry. -/
inductive PermOp where
  | register (tool_use_id : String) (sender : Nat)
  | resolve (tool_use_id : String) (result : Json)

/-- The registry state after one operation (errors and missing entries
leave the map unchanged, as in the source). -/
def applyPermOp (pending : PendingPermissions) : PermOp → PendingPermissions
  | .register id sender =>
    match register_permission pending id sender with
    | .ok p => p
    | .error _ => pending
  | .resolve id v => (resolve_permission pending id v).2.1

/-! ## tools/mod.rs — execute_tool -/

/-- Oracles for the effectful primitives `execute_tool` delegates to. -/
structure ToolIO where
  readFile : String → Except String String
  writeFile : String → String → Except String Unit
  editFile : String → String → String → Except String Unit
  runCommand : String → Option String → Except String ToolExecutionResult
  grep : String → Option String → Except String ToolExecutionResult
  globPaths : String → Option String → Except String (List String)
  fetchUrl : String → Except String String

def get_required_string (input : Json) (key : String) : Except String String :=
  match (input.get key).bind Json.asStr with
  | some value => .ok value
  | none => .error ("Missing required field: " ++ key)

def get_optional_string (input : Json) (key : String) : Option String :=
  (input.get key).bind Json.asStr

def isAbsolutePath (p : String) : Bool := p.toList.head? = some '/'

def joinPath (base p : String) : String := base ++ "/" ++ p

def resolve_path (path : String) (cwd : Option String) : String :=
  if isAbsolutePath path then path
  else
    match cwd with
    | some base => joinPath base path
    | none => path

/-- `tools::execute_tool`. -/
def execute_tool (io : ToolIO) (name : String) (input : Json)
    (cwd : Option String) : Except String ToolExecutionResult :=
  match name with
  | "Read" => do
    let file_path ← get_required_string input "file_path"
    let path := resolve_path file_path cwd
    let content ← io.readFile path
    .ok ⟨content, false⟩
  | "Write" => do
    let file_path ← get_required_string input "file_path"
    let content ← get_required_string input "content"
    let path := resolve_path file_path cwd
    io.writeFile path content
    .ok ⟨"Wrote " ++ toString content.length ++ " bytes to " ++ path, false⟩
  | "Edit" => do
    let file_path ← get_required_string input "file_path"
    let old_string ← get_required_string input "old_string"
    let new_string ← get_required_string input "new_string"
    let path := resolve_path file_path cwd
    io.editFile path old_string new_string
    .ok ⟨"Updated " ++ path, false⟩
  | "Bash" => do
    let command ← get_required_string input "command"
    io.runCommand command cwd
  | "Glob" => do
    let pattern ← get_required_string input "pattern"
    let base := (get_optional_string input "path").orElse (fun _ => cwd)
    let found ← io.globPaths pattern base
    .ok ⟨String.intercalate "\n" found, false⟩
  | "Grep" => do
    let pattern ← get_required_string input "pattern"
    let path := ((get_optional_string input "path").orElse
      (fun _ => get_optional_string input "file_path")).orElse (fun _ => cwd)
    io.grep pattern path
  | "WebFetch" => do
    let url ← get_required_string input "url"
    let content ← io.fetchUrl url
    .ok ⟨content, false⟩
  | "Task" => do
    let description ← get_required_string input "description"
    .ok ⟨"Task noted: " ++ description, false⟩
  | "AskUserQuestion" => .error "AskUserQuestion should be handled via permission workflow."
  | other => .error ("Unsupported tool: " ++ other)

/-! ## commands/client_event.rs — session runner -/

inductive PermissionMode where
  | ask
  | auto
deriving DecidableEq

inductive SessionStatus where
  | idle
  | running
  | completed
  | error
deriving DecidableEq

/-- Outbound server events relevant to the runner (session id omitted:
the model follows a single session). -/
inductive ServerEvent where
  | sessionStatus (status : SessionStatus) (error : Option String)
  | streamMessage (message : Json)
  | permissionRequest (tool_use_id tool_name : String) (input : Json)

/-- Is the event a `session.status` emission? -/
def isStatusEvent : ServerEvent → Bool
  | .sessionStatus _ _ => true
  | _ => false

structure ToolCall where
  id : String
  name : String
  input : Json

/-- Observable session state threaded through the runner: the registry
record's status, the message log, the emitted events, the permission
registrations performed, and the executor invocations performed. -/
structure RState where
  status : SessionStatus
  log : List Json
  events : List ServerEvent
  registered : List String
  execLog : List (String × Json × Option String)

/-- What the environment does with a permission rendezvous for a given
`tool_use_id`: the client resolves it, the channel closes, the 600 s
timeout elapses, or registration finds the id already pending. -/
inductive PermOutcome where
  | resolved (result : Json)
  | channelClosed
  | timedOut
  | alreadyPending

abbrev PermOracle := String → PermOutcome

abbrev Exec := String → Json → Option String → Except String ToolExecutionResult

/-- `build_tool_result_message`. -/
def build_tool_result_message (tool_use_id content : String) (is_error : Bool) : Json :=
  let safe_content :=
    if is_error && isBlank content.toList then "Tool execution failed." else content
  .obj [("type", .str "user"),
        ("message", .obj [("content", .arr [
          .obj [("type", .str "tool_result"),
                ("tool_use_id", .str tool_use_id),
                ("content", .str safe_content),
                ("is_error", .bool is_error)]])])]

/-- `request_permission`: register the rendezvous (an error if already
pending, with no event emitted), emit `permission.request`, then wait;
closure or timeout surface as errors. -/
def request_permission (perm : PermOracle) (call : ToolCall) (st : RState) :
    Except String Json × RState :=
  match perm call.id with
  | .alreadyPending => (.error "permission request already pending", st)
  | outcome =>
    let st := { st with
      registered := st.registered ++ [call.id],
      events := st.events ++ [.permissionRequest call.id call.name call.input] }
    match outcome with
    | .resolved result => (.ok result, st)
    | .channelClosed => (.error "Permission channel closed.", st)
    | .timedOut => (.error "Permission request timed out.", st)
    | .alreadyPending => (.error "permission request already pending", st)

/-- Append a tool-result log entry and its `stream.message` event. -/
def pushToolResult (st : RState) (msg : Json) : RState :=
  { st with log := st.log ++ [msg], events := st.events ++ [.streamMessage msg] }

/-- One iteration of the `handle_tool_calls` loop body for a single call. -/
def dispatchCall (exec : Exec) (perm : PermOracle) (mode : PermissionMode)
    (cwd : Option String) (st : RState) (call : ToolCall) :
    Except String Unit × RState :=
  let step :=
    if mode = .auto ∧ call.name ≠ "AskUserQuestion" then
      (Except.ok (Json.obj [("behavior", .str "allow"), ("updatedInput", call.input)]), st)
    else
      request_permission perm call st
  match step with
  | (.error m, st) => (.error m, st)
  | (.ok permission, st) =>
    let behavior := ((permission.get "behavior").bind Json.asStr).getD "deny"
    if behavior ≠ "allow" then
      let message := ((permission.get "message").bind Json.asStr).getD "User denied the request."
      (.ok (), pushToolResult st (build_tool_result_message call.id message true))
    else
      let effective_input := (permission.get "updatedInput").getD call.input
      if call.name = "AskUserQuestion" then
        let execution : ToolExecutionResult := ⟨stringify_value effective_input, false⟩
        (.ok (), pushToolResult st
          (build_tool_result_message call.id execution.content execution.is_error))
      else
        let st := { st with execLog := st.execLog ++ [(call.name, effective_input, cwd)] }
        let execution :=
          match exec call.name effective_input cwd with
          | .ok r => r
          | .error e => ⟨e, true⟩
        (.ok (), pushToolResult st
          (build_tool_result_message call.id execution.content execution.is_error))

/-- `handle_tool_calls`: dispatch each call in order; a permission
failure aborts with the error, everything else continues. -/
def handle_tool_calls (exec : Exec) (perm : PermOracle) (mode : PermissionMode)
    (cwd : Option String) : List ToolCall → RState → Except String Unit × RState
  | [], st => (.ok (), st)
  | call :: rest, st =>
    match dispatchCall exec perm mode cwd st call with
    | (.error m, st) => (.error m, st)
    | (.ok _, st) => handle_tool_calls exec perm mode cwd rest st

/-- What one `stream_model` turn produced: a fatal stream/HTTP error, or
a model response with its tool calls. -/
inductive StreamOutcome where
  | failure (message : String)
  | success (tool_calls : List ToolCall)

/-- Result of `run_session`; `outOfScript` is a model artifact marking
that the scripted turn list ran out while the loop wanted another turn. -/
inductive RunResult where
  | finished (result : Except String Unit) (st : RState)
  | outOfScript (st : RState)

def iterationCeilingMessage : String := "工具调用循环次数过多，已停止。"

/-- `update_session(id, status)` followed by a `session.status` emission. -/
def emitStatus (st : RState) (status : SessionStatus) (error : Option String) : RState :=
  { st with status := status, events := st.events ++ [.sessionStatus status error] }

/-- `run_session`: the per-session turn loop, driven by the scripted
stream outcomes. `iterations` counts completed loop iterations, as in the
source where the counter is incremented right after the ceiling check. -/
def run_session (exec : Exec) (perm : PermOracle) (mode : PermissionMode)
    (cwd : Option String) (maxIterations : Nat) :
    List StreamOutcome → Nat → RState → RunResult
  | turns, iterations, st =>
    if should_stop_tool_loop iterations maxIterations then
      .finished (.error iterationCeilingMessage)
        (emitStatus st .error (some iterationCeilingMessage))
    else
      match turns with
      | [] => .outOfScript st
      | .failure message :: _ =>
        .finished (.error message) (emitStatus st .error (some message))
      | .success tool_calls :: rest =>
        if tool_calls.isEmpty then
          .finished (.ok ()) (emitStatus st .completed none)
        else
          match handle_tool_calls exec perm mode cwd tool_calls st with
          | (.error m, st) => .finished (.error m) st
          | (.ok _, st) =>
            run_session exec perm mode cwd maxIterations rest (iterations + 1) st

/-! ## OpenAI stream tool-call builders -/

structure ToolCallBuilder where
  id : Option String := none
  name : Option String := none
  arguments : String := ""

/-- One `tool_calls` entry of an OpenAI delta, with its fields already
extracted (`index` defaults to 0 during extraction). -/
structure ToolDelta where
  index : Nat
  id : Option String
  name : Option String
  arguments : Option String

def modifyAt {α : Type} : List α → Nat → (α → α) → List α
  | [], _, _ => []
  | a :: rest, 0, f => f a :: rest
  | a :: rest, n + 1, f => a :: modifyAt rest n f

/-- Applying one delta entry: widen the builder list with
`resize_with(index + 1, default)` when needed, then overlay the optional
`id` and `function.name` and append the `function.arguments` fragment. -/
def applyToolCallDelta (builders : List ToolCallBuilder) (delta : ToolDelta) :
    List ToolCallBuilder :=
  let builders :=
    if builders.length ≤ delta.index then
      builders ++ List.replicate (delta.index + 1 - builders.length) ⟨none, none, ""⟩
    else builders
  modifyAt builders delta.index fun entry =>
    { id := match delta.id with | some i => some i | none => entry.id,
      name := match delta.name with | some n => some n | none => entry.name,
      arguments := entry.arguments ++ (delta.arguments.getD "") }

/-- `finalize_tool_calls`; `parseJson` abstracts `serde_json::from_str`. -/
def finalize_tool_calls (parseJson : String → Option Json)
    (builders : List ToolCallBuilder) : List ToolCall :=
  builders.enum.map fun p =>
    let idx := p.1
    let builder := p.2
    let name := builder.name.getD "UnknownTool"
    let id := builder.id.getD ("tool-" ++ toString idx)
    let input :=
      if isBlank builder.arguments.toList then Json.null
      else (parseJson builder.arguments).getD (Json.str builder.arguments)
    ⟨id, name, input⟩

/-! ## build_anthropic_messages -/

/-- `item.get("type").and_then(Value::as_str)`. -/
def typeTag (j : Json) : Option String := (j.get "type").bind Json.asStr

/-- `item.pointer("/message/content").and_then(Value::as_array)`. -/
def userContent (j : Json) : Option (List Json) :=
  ((j.get "message").bind (Json.get · "content")).bind Json.asArr

def isToolResultBlock (c : Json) : Bool :=
  match typeTag c with
  | some "tool_result" => true
  | _ => false

/-- The `flush_tool_results` closure: emit the pending tool results as a
single user message (nothing when the buffer is empty). -/
def anthFlush (pending : List Json) (messages : List Json) : List Json :=
  if pending.isEmpty then messages
  else messages ++ [Json.obj [("role", .str "user"), ("content", .arr pending)]]

/-- One step of the `build_anthropic_messages` walk: the accumulator is
(messages so far, pending tool results). -/
def anthStep (acc : List Json × List Json) (item : Json) : List Json × List Json :=
  let messages := acc.1
  let pending := acc.2
  match typeTag item with
  | some "user_prompt" =>
    let messages := anthFlush pending messages
    match (item.get "prompt").bind Json.asStr with
    | some prompt =>
      (messages ++ [Json.obj [("role", .str "user"),
        ("content", .arr [Json.obj [("type", .str "text"), ("text", .str prompt)]])]], [])
    | none => (messages, [])
  | some "assistant" =>
    let messages := anthFlush pending messages
    match userContent item with
    | some contents =>
      (messages ++ [Json.obj [("role", .str "assistant"), ("content", .arr contents)]], [])
    | none => (messages, [])
  | some "user" =>
    match userContent item with
    | some contents =>
      if contents.all isToolResultBlock then
        (messages, pending ++ contents)
      else
        (anthFlush pending messages ++
          [Json.obj [("role", .str "user"), ("content", .arr contents)]], [])
    | none => (messages, pending)
  | _ => (messages, pending)

/-- `build_anthropic_messages`. -/
def build_anthropic_messages (history : List Json) : List Json :=
  let res := history.foldl anthStep ([], [])
  anthFlush res.2 res.1

/-- A log record of type `user` whose message content is exactly the
given blocks — the shape of the tool-result records the runner appends. -/
def mkToolResultUser (blocks : List Json) : Json :=
  .obj [("type", .str "user"), ("message", .obj [("content", .arr blocks)])]

/-- A `{role:"user", content:<blocks>}` output turn. -/
def mkUserTurn (blocks : List Json) : Json :=
  Json.obj [("role", .str "user"), ("content", .arr blocks)]

/-- Records that flush the pending tool-result buffer in the Anthropic
transcoder walk: `user_prompt` records, `assistant` records, and `user`
records whose content array holds a non-`tool_result` block. -/
def IsFlusherRec (j : Json) : Prop :=
  typeTag j = some "user_prompt" ∨ typeTag j = some "assistant" ∨
  (typeTag j = some "user" ∧
    ∃ cs, userContent j = some cs ∧ cs.all isToolResultBlock = false)

/-- The output a flushing record contributes on its own behalf, right
after the pending buffer was flushed. -/
def flusherEmit (f : Json) : List Json :=
  match typeTag f with
  | some "user_prompt" =>
    match (f.get "prompt").bind Json.asStr with
    | some prompt => [Json.obj [("role", .str "user"),
        ("content", .arr [Json.obj [("type", .str "text"), ("text", .str prompt)]])]]
    | none => []
  | some "assistant" =>
    match userContent f with
    | some contents => [Json.obj [("role", .str "assistant"), ("content", .arr contents)]]
    | none => []
  | some "user" =>
    match userContent f with
    | some contents => [mkUserTurn contents]
    | none => []
  | _ => []

/-- The log of the claim's concrete example: a `user_prompt`, an
assistant turn with two `tool_use` blocks, then two user records each
holding a single `tool_result`. -/
def anthExampleLog : List Json :=
  [ .obj [("type", .str "user_prompt"), ("prompt", .str "hi")],
    .obj [("type", .str "assistant"), ("message", .obj [("content", .arr
      [ .obj [("type", .str "tool_use"), ("id", .str "tool-1"), ("name", .str "Read"),
              ("input", .obj [("file_path", .str "a.txt")])],
        .obj [("type", .str "tool_use"), ("id", .str "tool-2"), ("name", .str "Read"),
              ("input", .obj [("file_path", .str "b.txt")])]])])],
    mkToolResultUser
      [ .obj [("type", .str "tool_result"), ("tool_use_id", .str "tool-1"),
              ("content", .str "ok"), ("is_error", .bool false)]],
    mkToolResultUser
      [ .obj [("type", .str "tool_result"), ("tool_use_id", .str "tool-2"),
              ("content", .str "ok2"), ("is_error", .bool false)]]]

/-- The three output turns expected for `anthExampleLog`. -/
def anthExampleTurns : List Json :=
  [ .obj [("role", .str "user"), ("content", .arr
      [ .obj [("type", .str "text"), ("text", .str "hi")]])],
    .obj [("role", .str "assistant"), ("content", .arr
      [ .obj [("type", .str "tool_use"), ("id", .str "tool-1"), ("name", .str "Read"),
              ("input", .obj [("file_path", .str "a.txt")])],
        .obj [("type", .str "tool_use"), ("id", .str "tool-2"), ("name", .str "Read"),
              ("input", .obj [("file_path", .str "b.txt")])]])],
    mkUserTurn
      [ .obj [("type", .str "tool_result"), ("tool_use_id", .str "tool-1"),
              ("content", .str "ok"), ("is_error", .bool false)],
        .obj [("type", .str "tool_result"), ("tool_use_id", .str "tool-2"),
              ("content", .str "ok2"), ("is_error", .bool false)]]]

/-! # Theorems -/

/-- C2: the iteration ceiling comes from `OPEN_COWORK_MAX_TOOL_ITERATIONS`:
unset, empty or unparseable values give limit 0, meaning unlimited (the
ceiling never stops the loop); a parsed limit stops the loop exactly when
`max > 0 && iterations >= max`; and a ceiling stop transitions the session
to `Error` with the fixed Chinese message, emitting the matching
`session.status` event. -/
theorem c2_iteration_ceiling :
    (parse_max_tool_iterations none = 0 ∧
     parse_max_tool_iterations (some "".toList) = 0 ∧
     parse_max_tool_iterations (some "abc".toList) = 0 ∧
     (∀ raw, rustParseUsize (rustTrim raw) = none →
       parse_max_tool_iterations (some raw) = 0) ∧
     (∀ raw n, rustParseUsize (rustTrim raw) = some n →
       parse_max_tool_iterations (some raw) = n)) ∧
    (∀ iterations, should_stop_tool_loop iterations 0 = false) ∧
    (∀ iterations maxIterations,
      should_stop_tool_loop iterations maxIterations = true ↔
        (maxIterations > 0 ∧ iterations ≥ maxIterations)) ∧
    (∀ exec perm mode cwd maxIterations turns iterations st,
      should_stop_tool_loop iterations maxIterations = true →
      run_session exec perm mode cwd maxIterations turns iterations st =
        .finished (.error iterationCeilingMessage)
          (emitStatus st .error (some iterationCeilingMessage)) ∧
      (emitStatus st SessionStatus.error (some iterationCeilingMessage)).status =
        SessionStatus.error ∧
      (emitStatus st SessionStatus.error (some iterationCeilingMessage)).events =
        st.events ++ [.sessionStatus .error (some iterationCeilingMessage)]) := by
  refine ⟨⟨rfl, by decide, by decide, ?_, ?_⟩, ?_, ?_, ?_⟩
  · intro raw h
    by_cases he : (rustTrim raw).isEmpty <;>
      simp [parse_max_tool_iterations, he, h]
  · intro raw n h
    have hne : rustTrim raw ≠ [] := by
      intro hnil
      rw [hnil] at h
      simp [rustParseUsize] at h
    simp [parse_max_tool_iterations, h, List.isEmpty_iff, hne]
  · intro iterations
    simp [should_stop_tool_loop]
  · intro iterations maxIterations
    simp [should_stop_tool_loop, Bool.and_eq_true, decide_eq_true_eq]
  · intro exec perm mode cwd maxIterations turns iterations st h
    refine ⟨?_, rfl, rfl⟩
    rw [run_session.eq_def]
    simp [h]

theorem c2_iteration_ceiling_witness :
    rustParseUsize (rustTrim "xyz".toList) = none ∧
    parse_max_tool_iterations (some "xyz".toList) = 0 ∧
    should_stop_tool_loop 2 2 = true ∧
    run_session (fun _ _ _ => Except.ok ⟨"", false⟩) (fun _ => PermOutcome.timedOut)
      PermissionMode.ask none 2 [] 2 ⟨SessionStatus.running, [], [], [], []⟩ =
      RunResult.finished (Except.error iterationCeilingMessage)
        (emitStatus ⟨SessionStatus.running, [], [], [], []⟩ SessionStatus.error
          (some iterationCeilingMessage)) ∧
    rustParseUsize (rustTrim " 6 ".toList) = some 6 ∧
    parse_max_tool_iterations (some " 6 ".toList) = 6 :=
  ⟨by decide, c2_iteration_ceiling.1.2.2.2.1 _ (by decide), by decide,
   (c2_iteration_ceiling.2.2.2 _ _ _ _ 2 [] 2 _ (by decide)).1,
   by decide, c2_iteration_ceiling.1.2.2.2.2 _ 6 (by decide)⟩

/-- C7: `Edit` on a file whose content lacks `old_string` fails with
exactly `Old string not found in file.` leaving the content unchanged;
when `old_string` occurs, exactly the leftmost occurrence is replaced by
`new_string` and the result is written back. -/
theorem c7_edit_file :
    (∀ content old_string new_string, containsSub old_string content = false →
      edit_file content old_string new_string =
        (.error "Old string not found in file.", content)) ∧
    (∀ content old_string new_string, containsSub old_string content = true →
      edit_file content old_string new_string =
        (.ok (), replaceFirst old_string new_string content)) ∧
    (∀ (pre old_string new_string suf : List Char),
      (∀ i, i < pre.length →
        old_string.isPrefixOf ((pre ++ old_string ++ suf).drop i) = false) →
      replaceFirst old_string new_string (pre ++ old_string ++ suf) =
        pre ++ new_string ++ suf) := by
  have hpre : ∀ (pat rep s : List Char), pat.isPrefixOf s = true →
      replaceFirst pat rep s = rep ++ s.drop pat.length := by
    intro pat rep s h
    cases s with
    | nil =>
      have : pat = [] := List.prefix_nil.mp (List.isPrefixOf_iff_prefix.mp h)
      subst this
      simp [replaceFirst]
    | cons c rest => simp [replaceFirst, h]
  refine ⟨?_, ?_, ?_⟩
  · intro content old_string new_string h
    simp [edit_file, h]
  · intro content old_string new_string h
    simp [edit_file, h]
  · intro pre old_string new_string suf h
    induction pre with
    | nil =>
      have hp : old_string.isPrefixOf (old_string ++ suf) = true :=
        List.isPrefixOf_iff_prefix.mpr (List.prefix_append _ _)
      simp only [List.nil_append]
      rw [hpre _ _ _ hp, List.drop_left]
    | cons c pre' ih =>
      have h0 : old_string.isPrefixOf (c :: (pre' ++ old_string ++ suf)) = false := by
        have := h 0 (by simp)
        simpa using this
      simp only [List.cons_append]
      rw [replaceFirst, if_neg (by rw [h0]; simp)]
      have ih' := ih (fun i hi => by
        have := h (i + 1) (by simpa using Nat.succ_lt_succ hi)
        simpa using this)
      simp only [List.cons_append] at ih' ⊢
      rw [ih']

theorem c7_edit_file_witness :
    containsSub "xyz".toList "hello".toList = false ∧
    edit_file "hello".toList "xyz".toList "Q".toList =
      (Except.error "Old string not found in file.", "hello".toList) ∧
    containsSub "bc".toList "abcabc".toList = true ∧
    edit_file "abcabc".toList "bc".toList "X".toList =
      (Except.ok (), replaceFirst "bc".toList "X".toList "abcabc".toList) ∧
    replaceFirst "bc".toList "X".toList ("a".toList ++ "bc".toList ++ "abc".toList) =
      "a".toList ++ "X".toList ++ "abc".toList :=
  ⟨by decide, c7_edit_file.1 _ _ "Q".toList (by decide), by decide,
   c7_edit_file.2.1 _ _ "X".toList (by decide),
   c7_edit_file.2.2 "a".toList "bc".toList "X".toList "abc".toList (by decide)⟩

/-- C8 counterexample: with stdout `" "` (whitespace-only, hence
non-empty) and empty stderr, the code returns the empty string, not
stdout alone as the claim's literal emptiness reading requires. -/
theorem c8_counterexample :
    run_command (fun _ => .ok ⟨" ", "", 0⟩) "echo" none = .ok ⟨"", false⟩ ∧
    ("" : String) ≠ " " :=
  ⟨rfl, by decide⟩

/-- C8 (amended): the command runs through `sh -lc` (in cwd when given);
the content combines stdout and stderr with whitespace-only streams
treated as empty: joined by a single newline when both are non-blank,
stdout alone when only stderr is blank, stderr alone when only stdout is
blank, and the empty string when both are blank; `is_error` is true iff
the exit status is non-zero. -/
theorem c8_run_command_amended :
    (∀ spawn command cwd out, spawn ⟨"sh", ["-lc", command], cwd⟩ = Except.ok out →
      run_command spawn command cwd =
        .ok ⟨format_output out.stdout out.stderr, out.exitCode != 0⟩ ∧
      ((out.exitCode != 0) = true ↔ out.exitCode ≠ 0)) ∧
    (∀ stdout stderr : String,
      (isBlank stdout.toList = false → isBlank stderr.toList = false →
        format_output stdout stderr = stdout ++ "\n" ++ stderr) ∧
      (isBlank stdout.toList = false → isBlank stderr.toList = true →
        format_output stdout stderr = stdout) ∧
      (isBlank stdout.toList = true → isBlank stderr.toList = false →
        format_output stdout stderr = stderr) ∧
      (isBlank stdout.toList = true → isBlank stderr.toList = true →
        format_output stdout stderr = "")) := by
  constructor
  · intro spawn command cwd out h
    refine ⟨?_, bne_iff_ne⟩
    simp [run_command, h]
  · intro stdout stderr
    refine ⟨?_, ?_, ?_, ?_⟩ <;> intro h1 h2 <;>
      simp only [String.toList] at h1 h2 <;> simp [format_output, h1, h2]

theorem c8_run_command_amended_witness :
    run_command (fun _ => .ok ⟨"out", "err", 1⟩) "c" (some "/tmp") =
      .ok ⟨format_output "out" "err", (1 : Int) != 0⟩ ∧
    isBlank "out".toList = false ∧ isBlank "err".toList = false ∧
    format_output "out" "err" = "out" ++ "\n" ++ "err" :=
  ⟨((c8_run_command_amended.1 (fun _ => .ok ⟨"out", "err", 1⟩) "c" (some "/tmp")
      ⟨"out", "err", 1⟩ rfl).1), by decide, by decide,
   ((c8_run_command_amended.2 "out" "err").1 (by decide) (by decide))⟩

/-- C9: `WebFetch` bodies of more than 8000 bytes are cut to exactly the
first 8000 bytes followed by `...` and a `[truncated N bytes]` marker
with `N = length - 8000`; bodies of at most 8000 bytes pass through
unchanged; the whole output is prefixed by `Status: <code>` and a blank
line. -/
theorem c9_webfetch_truncation :
    (∀ statusStr (body : List Char), body.length ≤ 8000 →
      fetch_url_output statusStr body =
        ("Status: " ++ statusStr ++ "\n\n").toList ++ body) ∧
    (∀ statusStr (body : List Char), body.length > 8000 →
      fetch_url_output statusStr body =
        ("Status: " ++ statusStr ++ "\n\n").toList ++ body.take 8000 ++
          ("...\n[truncated " ++ toString (body.length - 8000) ++ " bytes]").toList ∧
      (body.take 8000).length = 8000) := by
  constructor
  · intro statusStr body h
    simp only [fetch_url_output]
    rw [if_neg (by omega)]
  · intro statusStr body h
    constructor
    · simp only [fetch_url_output]
      rw [if_pos (by omega), List.append_assoc]
    · simp only [List.length_take]
      omega

theorem c9_webfetch_truncation_witness :
    (List.replicate 12000 'a').length > 8000 ∧
    fetch_url_output "200 OK" (List.replicate 12000 'a') =
      ("Status: " ++ "200 OK" ++ "\n\n").toList ++ (List.replicate 12000 'a').take 8000 ++
        ("...\n[truncated " ++ toString ((List.replicate 12000 'a').length - 8000) ++
          " bytes]").toList ∧
    toString ((List.replicate 12000 'a').length - 8000) = "4000" ∧
    ((List.replicate 12000 'a').take 8000).length = 8000 :=
  ⟨by norm_num, (c9_webfetch_truncation.2 "200 OK" _ (by norm_num)).1,
   by simp only [List.length_replicate]; decide,
   (c9_webfetch_truncation.2 "200 OK" _ (by norm_num)).2⟩

/-! ### C6 — pending-permission registry -/

theorem containsKey_iff (pending : PendingPermissions) (id : String) :
    containsKey pending id = true ↔ id ∈ pending.map Prod.fst := by
  simp only [containsKey, List.any_eq_true, decide_eq_true_eq, List.mem_map]

theorem containsKey_eq_false_iff (pending : PendingPermissions) (id : String) :
    containsKey pending id = false ↔ id ∉ pending.map Prod.fst := by
  constructor
  · intro h hm
    rw [← containsKey_iff] at hm
    rw [h] at hm
    cases hm
  · intro hm
    cases h : containsKey pending id
    · rfl
    · exact absurd ((containsKey_iff _ _).mp h) hm

theorem removeKey_of_not_contains (pending : PendingPermissions) (id : String)
    (h : containsKey pending id = false) : removeKey pending id = (pending, none) := by
  induction pending with
  | nil => rfl
  | cons p rest ih =>
    obtain ⟨k, s⟩ := p
    simp only [containsKey, List.any_cons, Bool.or_eq_false_iff,
      decide_eq_false_iff_not] at h
    have hrest := ih h.2
    simp [removeKey, h.1, hrest]

theorem removeKey_fst_sublist (pending : PendingPermissions) (id : String) :
    ((removeKey pending id).1.map Prod.fst).Sublist (pending.map Prod.fst) := by
  induction pending with
  | nil => exact List.nil_sublist _
  | cons p rest ih =>
    obtain ⟨k, s⟩ := p
    by_cases hk : k = id
    · simp only [removeKey, if_pos hk, List.map_cons]
      exact List.sublist_cons_self _ _
    · simp only [removeKey, if_neg hk, List.map_cons]
      exact ih.cons₂ k

theorem removeKey_found (pending : PendingPermissions) (id : String)
    (h : containsKey pending id = true) :
    ∃ sender, (removeKey pending id).2 = some sender ∧
      (removeKey pending id).1.length + 1 = pending.length := by
  induction pending with
  | nil => simp [containsKey] at h
  | cons p rest ih =>
    obtain ⟨k, s⟩ := p
    by_cases hk : k = id
    · exact ⟨s, by simp [removeKey, hk], by simp [removeKey, hk]⟩
    · simp only [containsKey, List.any_cons] at h
      rw [decide_eq_false hk, Bool.false_or] at h
      obtain ⟨sender, h1, h2⟩ := ih h
      refine ⟨sender, by simp [removeKey, hk, h1], ?_⟩
      simp only [removeKey, if_neg hk, List.length_cons]
      omega

theorem removeKey_not_contains_after (pending : PendingPermissions) (id : String)
    (hnd : (pending.map Prod.fst).Nodup) :
    containsKey (removeKey pending id).1 id = false := by
  induction pending with
  | nil => rfl
  | cons p rest ih =>
    obtain ⟨k, s⟩ := p
    simp only [List.map_cons, List.nodup_cons] at hnd
    by_cases hk : k = id
    · subst hk
      simp only [removeKey, if_pos rfl]
      exact (containsKey_eq_false_iff rest k).mpr hnd.1
    · simp only [removeKey, if_neg hk, containsKey, List.any_cons,
        Bool.or_eq_false_iff, decide_eq_false_iff_not]
      exact ⟨hk, ih hnd.2⟩

theorem applyPermOp_nodup (pending : PendingPermissions) (op : PermOp)
    (hnd : (pending.map Prod.fst).Nodup) :
    ((applyPermOp pending op).map Prod.fst).Nodup := by
  cases op with
  | register id sender =>
    cases hc : containsKey pending id
    · have hreg : register_permission pending id sender = .ok ((id, sender) :: pending) := by
        simp [register_permission, hc]
      simp only [applyPermOp, hreg, List.map_cons, List.nodup_cons]
      exact ⟨(containsKey_eq_false_iff _ _).mp hc, hnd⟩
    · have hreg : register_permission pending id sender =
          .error "permission request already pending" := by
        simp [register_permission, hc]
      simp only [applyPermOp, hreg]
      exact hnd
  | resolve id v =>
    cases hrk : removeKey pending id with
    | mk rest o =>
      cases o with
      | none =>
        simp only [applyPermOp, resolve_permission, hrk]
        exact hnd
      | some sender =>
        simp only [applyPermOp, resolve_permission, hrk]
        have := removeKey_fst_sublist pending id
        rw [hrk] at this
        exact this.nodup hnd

/-- C6: the pending-permission registry holds at most one entry per
`tool_use_id`: registering an already-pending id fails and leaves the map
unchanged, registering a fresh id inserts it; resolving a present id
removes the entry and performs exactly one send, resolving an absent id
returns false and changes nothing; and every register/resolve sequence
preserves distinctness of the pending ids. -/
theorem c6_permission_registry :
    (∀ pending id sender, containsKey pending id = true →
      register_permission pending id sender =
        .error "permission request already pending") ∧
    (∀ pending id sender, containsKey pending id = false →
      register_permission pending id sender = .ok ((id, sender) :: pending)) ∧
    (∀ pending id v, containsKey pending id = false →
      resolve_permission pending id v = (false, pending, none)) ∧
    (∀ pending id v, (pending.map Prod.fst).Nodup → containsKey pending id = true →
      (resolve_permission pending id v).1 = true ∧
      (∃ sender, (resolve_permission pending id v).2.2 = some (sender, v)) ∧
      containsKey (resolve_permission pending id v).2.1 id = false ∧
      (resolve_permission pending id v).2.1.length + 1 = pending.length) ∧
    (∀ (ops : List PermOp) (pending : PendingPermissions),
      (pending.map Prod.fst).Nodup →
      ((ops.foldl applyPermOp pending).map Prod.fst).Nodup) := by
  refine ⟨?_, ?_, ?_, ?_, ?_⟩
  · intro pending id sender h
    simp [register_permission, h]
  · intro pending id sender h
    simp [register_permission, h]
  · intro pending id v h
    simp [resolve_permission, removeKey_of_not_contains pending id h]
  · intro pending id v hnd hc
    obtain ⟨sender, hsome, hlen⟩ := removeKey_found pending id hc
    have hpair : removeKey pending id = ((removeKey pending id).1, some sender) := by
      rw [← hsome]
    have hres : resolve_permission pending id v =
        (true, (removeKey pending id).1, some (sender, v)) := by
      unfold resolve_permission
      rw [hpair]
    rw [hres]
    exact ⟨rfl, ⟨sender, rfl⟩, removeKey_not_contains_after pending id hnd, hlen⟩
  · intro ops
    induction ops with
    | nil => intro pending hnd; exact hnd
    | cons op rest ih =>
      intro pending hnd
      exact ih _ (applyPermOp_nodup pending op hnd)

theorem c6_permission_registry_witness :
    containsKey [("t1", 5)] "t1" = true ∧
    register_permission [("t1", 5)] "t1" 7 =
      .error "permission request already pending" ∧
    containsKey [] "t1" = false ∧
    register_permission [] "t1" 5 = .ok [("t1", 5)] ∧
    resolve_permission [] "t1" Json.null = (false, [], none) ∧
    (resolve_permission [("t1", 5)] "t1" Json.null).1 = true ∧
    containsKey (resolve_permission [("t1", 5)] "t1" Json.null).2.1 "t1" = false ∧
    (([PermOp.register "t1" 5, PermOp.resolve "t1" Json.null].foldl
        applyPermOp []).map Prod.fst).Nodup :=
  ⟨by decide, c6_permission_registry.1 [("t1", 5)] "t1" 7 (by decide), by decide,
   c6_permission_registry.2.1 [] "t1" 5 (by decide),
   c6_permission_registry.2.2.1 [] "t1" Json.null (by decide),
   (c6_permission_registry.2.2.2.1 [("t1", 5)] "t1" Json.null (by simp) (by decide)).1,
   (c6_permission_registry.2.2.2.1 [("t1", 5)] "t1" Json.null (by simp) (by decide)).2.2.1,
   c6_permission_registry.2.2.2.2 [PermOp.register "t1" 5, PermOp.resolve "t1" Json.null]
     [] (by simp)⟩

/-! ### C4 — auto mode and AskUserQuestion -/

/-- C4: under permission mode Auto a prompt is skipped, with
`{behavior:"allow", updatedInput: call.input}` synthesized, exactly when
the call is not named `AskUserQuestion`: (i) any other name goes straight
to the executor with the call's own input, registering nothing and
emitting no `permission.request`; (ii) for `AskUserQuestion` Auto behaves
exactly like Ask; (iii) an `AskUserQuestion` call still registers a
rendezvous and emits `permission.request`, and on an allow response its
result is the stringified effective input with `is_error = false`, the
executor never being invoked. -/
theorem c4_auto_mode_askuser :
    (∀ (exec : Exec) perm cwd st id name input, name ≠ "AskUserQuestion" →
      dispatchCall exec perm .auto cwd st ⟨id, name, input⟩ =
        (let execution :=
          match exec name input cwd with
          | .ok r => r
          | .error e => (⟨e, true⟩ : ToolExecutionResult)
         let msg := build_tool_result_message id execution.content execution.is_error
         (.ok (), { st with
            execLog := st.execLog ++ [(name, input, cwd)],
            log := st.log ++ [msg],
            events := st.events ++ [.streamMessage msg] }))) ∧
    (∀ (exec : Exec) perm cwd st call, call.name = "AskUserQuestion" →
      dispatchCall exec perm .auto cwd st call = dispatchCall exec perm .ask cwd st call) ∧
    (∀ (exec : Exec) perm cwd st id input u,
      perm id = .resolved (Json.obj [("behavior", Json.str "allow"), ("updatedInput", u)]) →
      dispatchCall exec perm .auto cwd st ⟨id, "AskUserQuestion", input⟩ =
        (let msg := build_tool_result_message id (stringify_value u) false
         (.ok (), { st with
            registered := st.registered ++ [id],
            events := st.events ++
              [.permissionRequest id "AskUserQuestion" input, .streamMessage msg],
            log := st.log ++ [msg] }))) := by
  refine ⟨?_, ?_, ?_⟩
  · intro exec perm cwd st id name input h
    cases hexec : exec name input cwd with
    | ok r =>
      simp [dispatchCall, h, hexec, Json.get, Json.get.lookupField, Json.asStr,
        pushToolResult]
    | error e =>
      simp [dispatchCall, h, hexec, Json.get, Json.get.lookupField, Json.asStr,
        pushToolResult]
  · intro exec perm cwd st call h
    simp only [dispatchCall]
    rw [if_neg (by simp [h]), if_neg (by simp)]
  · intro exec perm cwd st id input u hperm
    simp [dispatchCall, request_permission, hperm, pushToolResult, Json.get,
      Json.get.lookupField, Json.asStr, List.append_assoc]

theorem c4_auto_mode_askuser_witness :
    dispatchCall (fun _ _ _ => .ok ⟨"ran", false⟩) (fun _ => .timedOut)
      .auto none ⟨.running, [], [], [], []⟩ ⟨"t1", "Bash", Json.null⟩ =
      (.ok (), (⟨.running, [build_tool_result_message "t1" "ran" false],
        [.streamMessage (build_tool_result_message "t1" "ran" false)],
        [], [("Bash", Json.null, none)]⟩ : RState)) ∧
    dispatchCall (fun _ _ _ => .ok ⟨"ran", false⟩) (fun _ => .timedOut)
      .auto none ⟨.running, [], [], [], []⟩ ⟨"t2", "AskUserQuestion", Json.null⟩ =
      dispatchCall (fun _ _ _ => .ok ⟨"ran", false⟩) (fun _ => .timedOut)
        .ask none ⟨.running, [], [], [], []⟩ ⟨"t2", "AskUserQuestion", Json.null⟩ ∧
    dispatchCall (fun _ _ _ => .ok ⟨"ran", false⟩)
      (fun _ => .resolved (Json.obj [("behavior", Json.str "allow"),
        ("updatedInput", Json.str "yes")]))
      .auto none ⟨.running, [], [], [], []⟩ ⟨"t3", "AskUserQuestion", Json.null⟩ =
      (.ok (), (⟨.running,
        [build_tool_result_message "t3" (stringify_value (Json.str "yes")) false],
        [.permissionRequest "t3" "AskUserQuestion" Json.null,
          .streamMessage (build_tool_result_message "t3"
            (stringify_value (Json.str "yes")) false)],
        ["t3"], []⟩ : RState)) :=
  ⟨c4_auto_mode_askuser.1 _ _ none _ "t1" "Bash" Json.null (by decide),
   c4_auto_mode_askuser.2.1 _ _ none _ ⟨"t2", "AskUserQuestion", Json.null⟩ rfl,
   c4_auto_mode_askuser.2.2 _ _ none _ "t3" Json.null (Json.str "yes") rfl⟩

/-! ### C10 — sparse OpenAI tool-call indices -/

theorem modifyAt_length {α : Type} (l : List α) (n : Nat) (f : α → α) :
    (modifyAt l n f).length = l.length := by
  induction l generalizing n with
  | nil => rfl
  | cons a rest ih =>
    cases n with
    | zero => rfl
    | succ m => simp [modifyAt, ih]

theorem modifyAt_getElem?_ne {α : Type} (l : List α) (n i : Nat) (f : α → α)
    (h : n ≠ i) : (modifyAt l n f)[i]? = l[i]? := by
  induction l generalizing n i with
  | nil => rfl
  | cons a rest ih =>
    cases n with
    | zero =>
      cases i with
      | zero => exact absurd rfl h
      | succ j => simp [modifyAt]
    | succ m =>
      cases i with
      | zero => simp [modifyAt]
      | succ j => simp [modifyAt, ih m j (by omega)]

theorem applyToolCallDelta_length (builders : List ToolCallBuilder) (delta : ToolDelta) :
    (applyToolCallDelta builders delta).length = max builders.length (delta.index + 1) := by
  by_cases hle : builders.length ≤ delta.index
  · simp only [applyToolCallDelta, if_pos hle, modifyAt_length, List.length_append,
      List.length_replicate]
    omega
  · simp only [applyToolCallDelta, if_neg hle, modifyAt_length]
    omega

theorem applyToolCallDelta_getD_ne (bs : List ToolCallBuilder) (d : ToolDelta) (i : Nat)
    (h : d.index ≠ i) :
    (applyToolCallDelta bs d).getD i ⟨none, none, ""⟩ = bs.getD i ⟨none, none, ""⟩ := by
  simp only [List.getD_eq_getElem?_getD]
  by_cases hle : bs.length ≤ d.index
  · simp only [applyToolCallDelta, if_pos hle]
    rw [modifyAt_getElem?_ne _ _ _ _ h, List.getElem?_append]
    by_cases hi : i < bs.length
    · rw [if_pos hi]
    · rw [if_neg hi, List.getElem?_replicate, List.getElem?_eq_none (by omega)]
      by_cases hcnt : i - bs.length < d.index + 1 - bs.length
      · rw [if_pos hcnt]
        rfl
      · rw [if_neg hcnt]
  · simp only [applyToolCallDelta, if_neg hle]
    rw [modifyAt_getElem?_ne _ _ _ _ h]

theorem foldl_applyToolCallDelta_gap (ds : List ToolDelta) (i : Nat)
    (h : ∀ d ∈ ds, d.index ≠ i) :
    ∀ bs : List ToolCallBuilder, bs.getD i ⟨none, none, ""⟩ = ⟨none, none, ""⟩ →
      (ds.foldl applyToolCallDelta bs).getD i ⟨none, none, ""⟩ = ⟨none, none, ""⟩ := by
  induction ds with
  | nil => intro bs hbs; exact hbs
  | cons d rest ih =>
    intro bs hbs
    simp only [List.foldl_cons]
    refine ih (fun d' hd' => h d' (List.mem_cons_of_mem _ hd')) _ ?_
    rw [applyToolCallDelta_getD_ne _ _ _ (h d (List.mem_cons_self _ _))]
    exact hbs

theorem finalize_tool_calls_default_at (parse : String → Option Json)
    (builders : List ToolCallBuilder) (i : Nat) (hi : i < builders.length)
    (hb : builders.getD i ⟨none, none, ""⟩ = ⟨none, none, ""⟩) :
    (finalize_tool_calls parse builders)[i]? =
      some ⟨"tool-" ++ toString i, "UnknownTool", Json.null⟩ := by
  have hsome : builders[i]? = some ⟨none, none, ""⟩ := by
    rw [List.getD_eq_getElem?_getD, List.getElem?_eq_getElem hi] at hb
    simp only [Option.getD_some] at hb
    rw [List.getElem?_eq_getElem hi, hb]
  simp only [finalize_tool_calls, List.getElem?_map, List.getElem?_enum, hsome,
    Option.map_some]
  simp [isBlank]

/-- C10: OpenAI tool-call deltas with sparse indices widen the builder
list to cover the maximum referenced index; finalization yields one
ToolCall per index up to that maximum, an untouched gap index becoming a
placeholder call named `UnknownTool` with id `tool-<index>` and null
input; and the tool loop dispatches such a placeholder through the very
same per-call path as any other call, reaching the executor, which
records an `Unsupported tool: UnknownTool` error result, after which the
loop continues. -/
theorem c10_sparse_tool_indices :
    (∀ builders delta, (applyToolCallDelta builders delta).length =
      max builders.length (delta.index + 1)) ∧
    (∀ (ds : List ToolDelta) (bs : List ToolCallBuilder),
      (ds.foldl applyToolCallDelta bs).length =
        ds.foldl (fun n d => max n (d.index + 1)) bs.length) ∧
    (∀ (parse : String → Option Json) (builders : List ToolCallBuilder),
      (finalize_tool_calls parse builders).length = builders.length) ∧
    (∀ (ds : List ToolDelta) (i : Nat) (parse : String → Option Json),
      (∀ d ∈ ds, d.index ≠ i) →
      i < (ds.foldl applyToolCallDelta []).length →
      (finalize_tool_calls parse (ds.foldl applyToolCallDelta []))[i]? =
        some ⟨"tool-" ++ toString i, "UnknownTool", Json.null⟩) ∧
    (∀ (io : ToolIO) perm cwd st (i : Nat),
      dispatchCall (execute_tool io) perm .auto cwd st
          ⟨"tool-" ++ toString i, "UnknownTool", Json.null⟩ =
        (.ok (), pushToolResult
          { st with execLog := st.execLog ++ [("UnknownTool", Json.null, cwd)] }
          (build_tool_result_message ("tool-" ++ toString i)
            "Unsupported tool: UnknownTool" true))) ∧
    (∀ (exec : Exec) perm mode cwd st call rest st',
      dispatchCall exec perm mode cwd st call = (.ok (), st') →
      handle_tool_calls exec perm mode cwd (call :: rest) st =
        handle_tool_calls exec perm mode cwd rest st') := by
  refine ⟨applyToolCallDelta_length, ?_, ?_, ?_, ?_, ?_⟩
  · intro ds
    induction ds with
    | nil => intro bs; rfl
    | cons d rest ih =>
      intro bs
      simp only [List.foldl_cons, ih, applyToolCallDelta_length]
  · intro parse builders
    simp [finalize_tool_calls]
  · intro ds i parse h hi
    refine finalize_tool_calls_default_at parse _ i hi ?_
    exact foldl_applyToolCallDelta_gap ds i h [] rfl
  · intro io perm cwd st i
    have hexec : execute_tool io "UnknownTool" Json.null cwd =
        .error "Unsupported tool: UnknownTool" := rfl
    simp [dispatchCall, hexec, Json.get, Json.get.lookupField, Json.asStr, pushToolResult]
  · intro exec perm mode cwd st call rest st' h
    simp [handle_tool_calls, h]

theorem c10_sparse_tool_indices_witness :
    (∀ d ∈ [(⟨2, some "id2", some "Bash", some "x"⟩ : ToolDelta)], d.index ≠ 1) ∧
    1 < (([(⟨2, some "id2", some "Bash", some "x"⟩ : ToolDelta)].foldl
      applyToolCallDelta []).length) ∧
    (finalize_tool_calls (fun _ => none)
      ([(⟨2, some "id2", some "Bash", some "x"⟩ : ToolDelta)].foldl
        applyToolCallDelta []))[1]? =
      some ⟨"tool-" ++ toString 1, "UnknownTool", Json.null⟩ ∧
    handle_tool_calls (fun _ _ _ => .ok ⟨"r", false⟩) (fun _ => .timedOut) .auto none
        [⟨"a", "Bash", Json.null⟩, ⟨"b", "Bash", Json.null⟩]
        ⟨.running, [], [], [], []⟩ =
      handle_tool_calls (fun _ _ _ => .ok ⟨"r", false⟩) (fun _ => .timedOut) .auto none
        [⟨"b", "Bash", Json.null⟩]
        (pushToolResult ⟨.running, [], [], [], [("Bash", Json.null, none)]⟩
          (build_tool_result_message "a" "r" false)) :=
  ⟨by decide, by decide,
   c10_sparse_tool_indices.2.2.2.1 [⟨2, some "id2", some "Bash", some "x"⟩] 1
     (fun _ => none) (by decide) (by decide),
   c10_sparse_tool_indices.2.2.2.2.2 _ _ .auto none _ ⟨"a", "Bash", Json.null⟩ _ _ rfl⟩

/-! ### C1 — permission failure and session status -/

theorem tail_clean_one (a : ServerEvent) (ha : isStatusEvent a = false) :
    ∀ e ∈ [a], isStatusEvent e = false := by
  intro e he
  rw [List.mem_singleton] at he
  rw [he]
  exact ha

theorem tail_clean_two (a b : ServerEvent) (ha : isStatusEvent a = false)
    (hb : isStatusEvent b = false) : ∀ e ∈ [a, b], isStatusEvent e = false := by
  intro e he
  rcases List.mem_cons.mp he with h | h
  · rw [h]
    exact ha
  · rw [List.mem_singleton] at h
    rw [h]
    exact hb

theorem dispatchCall_preserves (exec : Exec) (perm : PermOracle) (mode : PermissionMode)
    (cwd : Option String) (st : RState) (call : ToolCall) :
    ∃ tail, (dispatchCall exec perm mode cwd st call).2.status = st.status ∧
      (dispatchCall exec perm mode cwd st call).2.events = st.events ++ tail ∧
      ∀ e ∈ tail, isStatusEvent e = false := by
  by_cases hmode : mode = PermissionMode.auto ∧ call.name ≠ "AskUserQuestion"
  · obtain ⟨hm, hname⟩ := hmode
    subst hm
    cases hx : exec call.name call.input cwd with
    | ok r =>
      refine ⟨[.streamMessage (build_tool_result_message call.id r.content r.is_error)],
        ?_, ?_, tail_clean_one _ rfl⟩ <;>
        simp [dispatchCall, hname, hx, pushToolResult, Json.get, Json.get.lookupField,
          Json.asStr]
    | error e =>
      refine ⟨[.streamMessage (build_tool_result_message call.id e true)],
        ?_, ?_, tail_clean_one _ rfl⟩ <;>
        simp [dispatchCall, hname, hx, pushToolResult, Json.get, Json.get.lookupField,
          Json.asStr]
  · cases hperm : perm call.id with
    | alreadyPending =>
      refine ⟨[], ?_, ?_, fun e he => absurd he (List.not_mem_nil e)⟩ <;>
        simp [dispatchCall, hmode, request_permission, hperm]
    | channelClosed =>
      refine ⟨[.permissionRequest call.id call.name call.input], ?_, ?_,
        tail_clean_one _ rfl⟩ <;>
        simp [dispatchCall, hmode, request_permission, hperm]
    | timedOut =>
      refine ⟨[.permissionRequest call.id call.name call.input], ?_, ?_,
        tail_clean_one _ rfl⟩ <;>
        simp [dispatchCall, hmode, request_permission, hperm]
    | resolved v =>
      by_cases hb : (((v.get "behavior").bind Json.asStr).getD "deny") = "allow"
      · by_cases hnameq : call.name = "AskUserQuestion"
        · refine ⟨[.permissionRequest call.id call.name call.input,
            .streamMessage (build_tool_result_message call.id
              (stringify_value ((v.get "updatedInput").getD call.input)) false)],
            ?_, ?_, tail_clean_two _ _ rfl rfl⟩ <;>
            simp [dispatchCall, hnameq, request_permission, hperm, hb, pushToolResult]
        · have hmne : mode ≠ PermissionMode.auto := fun hm => hmode ⟨hm, hnameq⟩
          cases hx : exec call.name ((v.get "updatedInput").getD call.input) cwd with
          | ok r =>
            refine ⟨[.permissionRequest call.id call.name call.input,
              .streamMessage (build_tool_result_message call.id r.content r.is_error)],
              ?_, ?_, tail_clean_two _ _ rfl rfl⟩ <;>
              simp [dispatchCall, hmne, request_permission, hperm, hb, hnameq, hx,
                pushToolResult]
          | error e =>
            refine ⟨[.permissionRequest call.id call.name call.input,
              .streamMessage (build_tool_result_message call.id e true)],
              ?_, ?_, tail_clean_two _ _ rfl rfl⟩ <;>
              simp [dispatchCall, hmne, request_permission, hperm, hb, hnameq, hx,
                pushToolResult]
      · refine ⟨[.permissionRequest call.id call.name call.input,
          .streamMessage (build_tool_result_message call.id
            (((v.get "message").bind Json.asStr).getD "User denied the request.") true)],
          ?_, ?_, tail_clean_two _ _ rfl rfl⟩ <;>
          simp [dispatchCall, hmode, request_permission, hperm, hb, pushToolResult]

theorem handle_tool_calls_preserves (exec : Exec) (perm : PermOracle)
    (mode : PermissionMode) (cwd : Option String) :
    ∀ (calls : List ToolCall) (st : RState),
      ∃ tail, (handle_tool_calls exec perm mode cwd calls st).2.status = st.status ∧
        (handle_tool_calls exec perm mode cwd calls st).2.events = st.events ++ tail ∧
        ∀ e ∈ tail, isStatusEvent e = false := by
  intro calls
  induction calls with
  | nil =>
    intro st
    exact ⟨[], rfl, by simp [handle_tool_calls], fun e he => absurd he (List.not_mem_nil e)⟩
  | cons c rest ih =>
    intro st
    obtain ⟨tail₁, h1s, h1e, h1c⟩ := dispatchCall_preserves exec perm mode cwd st c
    rcases hd : dispatchCall exec perm mode cwd st c with ⟨r, st₁⟩
    rw [hd] at h1s h1e
    dsimp only at h1s h1e
    cases r with
    | error m =>
      refine ⟨tail₁, ?_, ?_, h1c⟩ <;> simp [handle_tool_calls, hd, h1s, h1e]
    | ok u =>
      obtain ⟨tail₂, h2s, h2e, h2c⟩ := ih st₁
      refine ⟨tail₁ ++ tail₂, ?_, ?_, ?_⟩
      · simp only [handle_tool_calls, hd]
        rw [h2s, h1s]
      · simp only [handle_tool_calls, hd]
        rw [h2e, h1e, List.append_assoc]
      · intro e he
        rcases List.mem_append.mp he with he | he
        · exact h1c e he
        · exact h2c e he

/-- C1 counterexample: a permission timeout during tool dispatch makes
`run_session` return the error while the session record still has status
`Running` and the only emitted event is the `permission.request` — no
transition to `Error` and no `session.status` event happen. -/
theorem c1_counterexample :
    run_session (fun _ _ _ => .ok ⟨"", false⟩) (fun _ => .timedOut) .ask none 0
        [.success [⟨"t1", "Read", Json.null⟩]] 0 ⟨.running, [], [], [], []⟩ =
      .finished (.error "Permission request timed out.")
        ⟨.running, [], [.permissionRequest "t1" "Read" Json.null], ["t1"], []⟩ ∧
    SessionStatus.running ≠ SessionStatus.error ∧
    ([ServerEvent.permissionRequest "t1" "Read" Json.null].all
      (fun e => !(isStatusEvent e))) = true :=
  ⟨rfl, by decide, by decide⟩

/-- C1 (amended): when tool dispatch fails with a permission failure
(timeout, channel closed, or double registration), the runner returns
that error as-is: the session's registry status is left unchanged (it
stays `Running`) and no `session.status` event is emitted by the runner
for this failure — only tool-loop events (`permission.request`,
`stream.message`) are appended. The spawning handler then surfaces the
error as `runner.error`. -/
theorem c1_permission_failure_amended :
    (∀ (exec : Exec) perm mode cwd calls st m st',
      handle_tool_calls exec perm mode cwd calls st = (.error m, st') →
      st'.status = st.status ∧
      st'.events.take st.events.length = st.events ∧
      ∀ e ∈ st'.events.drop st.events.length, isStatusEvent e = false) ∧
    (∀ (exec : Exec) perm mode cwd maxIterations iterations st calls rest m st',
      should_stop_tool_loop iterations maxIterations = false →
      calls.isEmpty = false →
      handle_tool_calls exec perm mode cwd calls st = (.error m, st') →
      run_session exec perm mode cwd maxIterations
          (StreamOutcome.success calls :: rest) iterations st =
        .finished (.error m) st') := by
  constructor
  · intro exec perm mode cwd calls st m st' h
    obtain ⟨tail, hs, he, hc⟩ := handle_tool_calls_preserves exec perm mode cwd calls st
    rw [h] at hs he
    refine ⟨hs, ?_, ?_⟩
    · rw [he, List.take_left]
    · rw [he, List.drop_left]
      exact hc
  · intro exec perm mode cwd maxIterations iterations st calls rest m st' hstop hne h
    rw [run_session.eq_def]
    simp [hstop, hne, h]

theorem c1_permission_failure_amended_witness :
    ((⟨SessionStatus.running, [], [ServerEvent.permissionRequest "t1" "Read" Json.null],
        ["t1"], []⟩ : RState).status =
      (⟨SessionStatus.running, [], [], [], []⟩ : RState).status ∧
     (⟨SessionStatus.running, [], [ServerEvent.permissionRequest "t1" "Read" Json.null],
        ["t1"], []⟩ : RState).events.take
          (⟨SessionStatus.running, [], [], [], []⟩ : RState).events.length =
      (⟨SessionStatus.running, [], [], [], []⟩ : RState).events) ∧
    run_session (fun _ _ _ => Except.ok ⟨"", false⟩) (fun _ => PermOutcome.timedOut)
      PermissionMode.ask none 7 [StreamOutcome.success [⟨"t1", "Read", Json.null⟩]] 0
      ⟨SessionStatus.running, [], [], [], []⟩ =
      RunResult.finished (Except.error "Permission request timed out.")
        ⟨SessionStatus.running, [], [ServerEvent.permissionRequest "t1" "Read" Json.null],
          ["t1"], []⟩ :=
  ⟨⟨(c1_permission_failure_amended.1 (fun _ _ _ => Except.ok ⟨"", false⟩)
      (fun _ => PermOutcome.timedOut) PermissionMode.ask none [⟨"t1", "Read", Json.null⟩]
      ⟨SessionStatus.running, [], [], [], []⟩ "Permission request timed out." _ rfl).1,
    (c1_permission_failure_amended.1 (fun _ _ _ => Except.ok ⟨"", false⟩)
      (fun _ => PermOutcome.timedOut) PermissionMode.ask none [⟨"t1", "Read", Json.null⟩]
      ⟨SessionStatus.running, [], [], [], []⟩ "Permission request timed out." _ rfl).2.1⟩,
   c1_permission_failure_amended.2 (fun _ _ _ => Except.ok ⟨"", false⟩)
     (fun _ => PermOutcome.timedOut) PermissionMode.ask none 7 0
     ⟨SessionStatus.running, [], [], [], []⟩ [⟨"t1", "Read", Json.null⟩] [] _ _
     rfl rfl rfl⟩

/-! ### C3 — Anthropic tool-result coalescing -/

theorem anthStep_toolResultUser (msgs pending : List Json) (bs : List Json)
    (h : ∀ b ∈ bs, isToolResultBlock b = true) :
    anthStep (msgs, pending) (mkToolResultUser bs) = (msgs, pending ++ bs) := by
  have hall : bs.all isToolResultBlock = true := List.all_eq_true.mpr h
  simp [anthStep, mkToolResultUser, typeTag, userContent, Json.get,
    Json.get.lookupField, Json.asStr, Json.asArr, hall]

theorem anth_run_absorb (bss : List (List Json))
    (h : ∀ bs ∈ bss, ∀ b ∈ bs, isToolResultBlock b = true) :
    ∀ msgs pending, List.foldl anthStep (msgs, pending) (bss.map mkToolResultUser) =
      (msgs, pending ++ bss.flatten) := by
  induction bss with
  | nil =>
    intro msgs pending
    simp
  | cons bs rest ih =>
    intro msgs pending
    rw [List.map_cons, List.foldl_cons,
      anthStep_toolResultUser msgs pending bs (h bs (List.mem_cons_self _ _)),
      ih (fun bs' hb => h bs' (List.mem_cons_of_mem _ hb))]
    simp [List.append_assoc]

theorem anth_flusher_step (msgs pending : List Json) (f : Json)
    (hf : IsFlusherRec f) (hp : pending ≠ []) :
    anthStep (msgs, pending) f = (msgs ++ [mkUserTurn pending] ++ flusherEmit f, []) := by
  have hpe : pending.isEmpty = false := List.isEmpty_eq_false.mpr hp
  rcases hf with h | h | ⟨h, cs, hcs, hall⟩
  · cases hpr : (f.get "prompt").bind Json.asStr with
    | none => simp [anthStep, h, hpr, anthFlush, hpe, flusherEmit, mkUserTurn]
    | some prompt => simp [anthStep, h, hpr, anthFlush, hpe, flusherEmit, mkUserTurn]
  · cases hc : userContent f with
    | none => simp [anthStep, h, hc, anthFlush, hpe, flusherEmit, mkUserTurn]
    | some contents => simp [anthStep, h, hc, anthFlush, hpe, flusherEmit, mkUserTurn]
  · simp [anthStep, h, hcs, hall, anthFlush, hpe, flusherEmit, mkUserTurn]

/-- C3: the Anthropic transcoder coalesces a maximal run of consecutive
all-`tool_result` user records into exactly one user turn holding all
those blocks in order: whether the run is ended by a flushing record
(`user_prompt`, `assistant`, or a user record with a non-`tool_result`
block) or by the end of the log, the output contains a single user turn
with the run's concatenated blocks, the flusher's own turn following it;
in particular the log [user_prompt, assistant with two tool_uses, two
single-tool_result user records] yields exactly the three expected
turns. -/
theorem c3_anthropic_coalescing :
    (∀ (h₁ : List Json) (bss : List (List Json)) (f : Json) (rest : List Json),
      (List.foldl anthStep ([], []) h₁).2 = [] →
      (∀ bs ∈ bss, ∀ b ∈ bs, isToolResultBlock b = true) →
      bss.flatten ≠ [] →
      IsFlusherRec f →
      build_anthropic_messages (h₁ ++ bss.map mkToolResultUser ++ f :: rest) =
        (let ms := (List.foldl anthStep ([], []) h₁).1
         let after :=
           List.foldl anthStep (ms ++ [mkUserTurn bss.flatten] ++ flusherEmit f, []) rest
         anthFlush after.2 after.1)) ∧
    (∀ (h₁ : List Json) (bss : List (List Json)),
      (List.foldl anthStep ([], []) h₁).2 = [] →
      (∀ bs ∈ bss, ∀ b ∈ bs, isToolResultBlock b = true) →
      bss.flatten ≠ [] →
      build_anthropic_messages (h₁ ++ bss.map mkToolResultUser) =
        (List.foldl anthStep ([], []) h₁).1 ++ [mkUserTurn bss.flatten]) ∧
    build_anthropic_messages anthExampleLog = anthExampleTurns ∧
    anthExampleTurns.length = 3 := by
  have hfold : ∀ h₁ : List Json, (List.foldl anthStep ([], []) h₁).2 = [] →
      List.foldl anthStep (([] : List Json), ([] : List Json)) h₁ =
        ((List.foldl anthStep ([], []) h₁).1, []) := by
    intro h₁ hpre
    exact Prod.ext rfl hpre
  refine ⟨?_, ?_, rfl, rfl⟩
  · intro h₁ bss f rest hpre htr hjoin hf
    unfold build_anthropic_messages
    rw [List.foldl_append, List.foldl_append, hfold h₁ hpre, anth_run_absorb bss htr,
      List.nil_append, List.foldl_cons, anth_flusher_step _ _ f hf hjoin]
  · intro h₁ bss hpre htr hjoin
    unfold build_anthropic_messages
    rw [List.foldl_append, hfold h₁ hpre, anth_run_absorb bss htr, List.nil_append]
    simp [anthFlush, List.isEmpty_eq_false.mpr hjoin, mkUserTurn]

theorem c3_anthropic_coalescing_witness :
    (List.foldl anthStep ([], []) [Json.obj [("type", Json.str "user_prompt"),
      ("prompt", Json.str "hi")]]).2 = [] ∧
    build_anthropic_messages
      ([Json.obj [("type", Json.str "user_prompt"), ("prompt", Json.str "hi")]] ++
        [[Json.obj [("type", Json.str "tool_result"), ("tool_use_id", Json.str "t1"),
            ("content", Json.str "ok"), ("is_error", Json.bool false)]],
         [Json.obj [("type", Json.str "tool_result"), ("tool_use_id", Json.str "t2"),
            ("content", Json.str "ok2"), ("is_error", Json.bool false)]]].map
          mkToolResultUser ++
        Json.obj [("type", Json.str "user_prompt"), ("prompt", Json.str "again")] :: []) =
      (let ms := (List.foldl anthStep ([], [])
        [Json.obj [("type", Json.str "user_prompt"), ("prompt", Json.str "hi")]]).1
       let after := List.foldl anthStep (ms ++
         [mkUserTurn ([[Json.obj [("type", Json.str "tool_result"),
             ("tool_use_id", Json.str "t1"), ("content", Json.str "ok"),
             ("is_error", Json.bool false)]],
           [Json.obj [("type", Json.str "tool_result"), ("tool_use_id", Json.str "t2"),
             ("content", Json.str "ok2"), ("is_error", Json.bool false)]]].flatten)] ++
         flusherEmit (Json.obj [("type", Json.str "user_prompt"),
           ("prompt", Json.str "again")]), []) []
       anthFlush after.2 after.1) :=
  ⟨rfl,
   c3_anthropic_coalescing.1
     [Json.obj [("type", Json.str "user_prompt"), ("prompt", Json.str "hi")]]
     [[Json.obj [("type", Json.str "tool_result"), ("tool_use_id", Json.str "t1"),
         ("content", Json.str "ok"), ("is_error", Json.bool false)]],
      [Json.obj [("type", Json.str "tool_result"), ("tool_use_id", Json.str "t2"),
         ("content", Json.str "ok2"), ("is_error", Json.bool false)]]]
     (Json.obj [("type", Json.str "user_prompt"), ("prompt", Json.str "again")]) []
     rfl (by decide) (by simp) (Or.inl rfl)⟩

/-! ### C5 — SSE drain round trip -/

theorem drainGo_none (buf : List Char) (h : findSep buf = none) :
    ∀ fuel, drainGo fuel buf = ([], buf) := by
  intro fuel
  cases fuel with
  | zero => rfl
  | succ f => simp [drainGo, h]

theorem drainGo_succ (fuel : Nat) (buf : List Char) (pos : Nat)
    (h : findSep buf = some pos) :
    drainGo (fuel + 1) buf =
      (if isBlank (buf.take pos) then (drainGo fuel (buf.drop (pos + 2))).1
       else buf.take pos :: (drainGo fuel (buf.drop (pos + 2))).1,
       (drainGo fuel (buf.drop (pos + 2))).2) := by
  rcases hd : drainGo fuel (buf.drop (pos + 2)) with ⟨evs, rem⟩
  simp [drainGo, h, hd]

theorem findSep_append_sep (ev rest : List Char) (hno : findSep ev = none)
    (hlast : ev.getLast? ≠ some '\n') :
    findSep (ev ++ '\n' :: '\n' :: rest) = some ev.length := by
  induction ev with
  | nil => simp [findSep]
  | cons c ev' ih =>
    cases ev' with
    | nil =>
      have hc : c ≠ '\n' := by simpa using hlast
      simp [findSep, hc]
    | cons d ev'' =>
      have hcd : ¬(c = '\n' ∧ d = '\n') := by
        rintro ⟨hc, hd⟩
        rw [hc, hd] at hno
        simp [findSep] at hno
      have hno' : findSep (d :: ev'') = none := by
        rw [findSep, if_neg hcd] at hno
        exact Option.map_eq_none.mp hno
      have hlast' : (d :: ev'').getLast? ≠ some '\n' := by
        rw [List.getLast?_cons_cons] at hlast
        exact hlast
      have hstep := ih hno' hlast'
      simp only [List.cons_append] at hstep ⊢
      rw [findSep, if_neg hcd, hstep]
      simp [List.length_cons]

/-- C5 counterexample: with `ev1 = "a\n"` (no `"\n\n"` inside, not
whitespace-only), `ev2 = "b"` and `partial = "p"`, draining yields
`["a", "\nb"]`, not `[ev1, ev2]`: the separator is found one character
early because `ev1` ends with a newline. -/
theorem c5_counterexample :
    drain_sse_events ("a\n".toList ++ ['\n', '\n'] ++ "b".toList ++ ['\n', '\n'] ++
        "p".toList) =
      (["a".toList, "\nb".toList], "p".toList) ∧
    findSep "a\n".toList = none ∧ isBlank "a\n".toList = false ∧
    findSep "b".toList = none ∧ isBlank "b".toList = false ∧
    findSep "p".toList = none ∧
    (["a".toList, "\nb".toList], "p".toList) ≠
      (["a\n".toList, "b".toList], "p".toList) := by
  refine ⟨by decide, by decide, by decide, by decide, by decide, by decide, by decide⟩

/-- C5 (amended): for event strings `ev1`, `ev2` that contain no
`"\n\n"`, are not whitespace-only, and additionally do not end with a
newline character, and a trailing `partial` containing no `"\n\n"`,
draining `ev1 ++ "\n\n" ++ ev2 ++ "\n\n" ++ partial` yields exactly
`[ev1, ev2]` and leaves `partial` in the buffer; draining again with no
new data yields the empty list and leaves the buffer unchanged. -/
theorem c5_sse_drain_amended (ev1 ev2 tailBuf : List Char)
    (h1 : findSep ev1 = none) (h2 : findSep ev2 = none) (hp : findSep tailBuf = none)
    (hw1 : isBlank ev1 = false) (hw2 : isBlank ev2 = false)
    (hn1 : ev1.getLast? ≠ some '\n') (hn2 : ev2.getLast? ≠ some '\n') :
    drain_sse_events (ev1 ++ ['\n', '\n'] ++ ev2 ++ ['\n', '\n'] ++ tailBuf) =
      ([ev1, ev2], tailBuf) ∧
    drain_sse_events tailBuf = ([], tailBuf) := by
  constructor
  · have hassoc : ev1 ++ ['\n', '\n'] ++ ev2 ++ ['\n', '\n'] ++ tailBuf =
        ev1 ++ '\n' :: '\n' :: (ev2 ++ '\n' :: '\n' :: tailBuf) := by
      simp [List.append_assoc]
    unfold drain_sse_events
    rw [hassoc]
    have hL : (ev1 ++ '\n' :: '\n' :: (ev2 ++ '\n' :: '\n' :: tailBuf)).length =
        (ev1.length + ev2.length + tailBuf.length + 3) + 1 := by
      simp [List.length_append]
      omega
    have hdrop1 : (ev1 ++ '\n' :: '\n' :: (ev2 ++ '\n' :: '\n' :: tailBuf)).drop
        (ev1.length + 2) = ev2 ++ '\n' :: '\n' :: tailBuf := by
      rw [List.drop_append 2]
      rfl
    have hdrop2 : (ev2 ++ '\n' :: '\n' :: tailBuf).drop (ev2.length + 2) = tailBuf := by
      rw [List.drop_append 2]
      rfl
    have htake1 : (ev1 ++ '\n' :: '\n' :: (ev2 ++ '\n' :: '\n' :: tailBuf)).take
        ev1.length = ev1 := List.take_left ev1 _
    have htake2 : (ev2 ++ '\n' :: '\n' :: tailBuf).take ev2.length = ev2 :=
      List.take_left ev2 _
    rw [hL, drainGo_succ _ _ _ (findSep_append_sep ev1 _ h1 hn1), htake1, hdrop1,
      drainGo_succ _ _ _ (findSep_append_sep ev2 _ h2 hn2), htake2, hdrop2,
      drainGo_none tailBuf hp, hw1, hw2]
    simp
  · unfold drain_sse_events
    exact drainGo_none tailBuf hp _

theorem c5_sse_drain_amended_witness :
    findSep "ev1".toList = none ∧ isBlank "ev1".toList = false ∧
    "ev1".toList.getLast? ≠ some '\n' ∧
    drain_sse_events ("ev1".toList ++ ['\n', '\n'] ++ "ev2".toList ++ ['\n', '\n'] ++
        "part".toList) =
      (["ev1".toList, "ev2".toList], "part".toList) ∧
    drain_sse_events "part".toList = ([], "part".toList) :=
  ⟨by decide, by decide, by decide,
   (c5_sse_drain_amended "ev1".toList "ev2".toList "part".toList (by decide) (by decide)
     (by decide) (by decide) (by decide) (by decide) (by decide)).1,
   (c5_sse_drain_amended "ev1".toList "ev2".toList "part".toList (by decide) (by decide)
     (by decide) (by decide) (by decide) (by decide) (by decide)).2⟩

end OpenCowork
